import Mathlib

/-!
Shallow embedding of the live-node directory of the repository
(`shared/live_nodes.go`, package `shared`).

Modelling conventions:
* `url.URL` values are modelled by the `URL` structure below, keeping the
  fields that the directory reads or writes (`Scheme`, `Host`, `Path`,
  `RawQuery`).  The standard-library function `url.Parse` is an external
  collaborator; every definition that needs it takes an explicit argument
  `parse : String → Option URL` (`none` models a parse error).
* Go's `time.Duration` is an `int64` count of nanoseconds, modelled as `Int`.
  `int64(d.Seconds())` is modelled by truncated division by `10^9`.
* Atomic loads/stores/CAS are modelled by plain state passing: the claims in
  question are about the sequential behaviour of each operation.
* The `uint64` round-robin cursor wraps modulo `2^64`; the modulus is kept
  explicit.  A selection from an empty list would be an integer division by
  zero at run time, modelled by `Option` (`none` = run-time failure).
* The HTTP GET performed by `getNodes` is an external collaborator as well:
  its outcome is passed in as an `HTTPResult` value.
* The buffered update channel of capacity one (`updateSignal`) is modelled by
  a `Bool`: `true` means a signal is pending; the `select`/`default` send
  makes it `true` whether or not a signal was already pending.
-/

namespace Shared

/-- Model of Go's `url.URL`, restricted to the fields used by the module. -/
structure URL where
  scheme : String
  host : String
  path : String
  rawQuery : String
deriving DecidableEq

/-- Model of `ALNConfig` (the fields the verified operations read).
`updatePeriod` and `idleUpdatePeriod` are `time.Duration` values
(nanosecond counts). -/
structure ALNConfig where
  scheme : String
  port : Int
  rack : String
  datacenter : String
  updatePeriod : Int
  idleUpdatePeriod : Int
deriving DecidableEq

/-- The modulus of Go's `uint64` arithmetic. -/
def uint64Card : Nat := 2 ^ 64

/-- Model of `int64(d.Seconds())` for a `time.Duration` `d`: truncated
division of the nanosecond count by `10^9` (exact where `float64`
rounding does not intervene, i.e. for all realistic durations). -/
def durationSeconds (d : Int) : Int := d.tdiv 1000000000

/-- The URL string assembled by `fmt.Sprintf("%s://%s:%d", scheme, node, port)`. -/
def assembleURL (scheme node : String) (port : Int) : String :=
  scheme ++ "://" ++ node ++ ":" ++ toString port

/-- Model of the mutable state of an `AlternatorLiveNodes` value:
the atomic snapshot pointer, the immutable bootstrap list, the `uint64`
round-robin cursor, the configuration, the `int64` active-refresh deadline,
the started-flag of the idle updater, and the pending-signal state of the
buffered update channel. -/
structure ALNState where
  liveNodes : List URL
  initialNodes : List URL
  nextLiveNodeIdx : Nat
  cfg : ALNConfig
  nextUpdate : Int
  idleUpdaterStarted : Bool
  updateSignal : Bool
deriving DecidableEq

/-- Errors of `NewAlternatorLiveNodes`. -/
inductive NewError where
  | emptyNodes
  | invalidNodeURI
deriving DecidableEq

/-- The bootstrap-parsing loop of `NewAlternatorLiveNodes`: each host is
assembled with the configured scheme and port and parsed; the first parse
error aborts the whole construction (`return nil, fmt.Errorf(...)`). -/
def parseInitialNodes (parse : String → Option URL) (cfg : ALNConfig) :
    List String → Option (List URL)
  | [] => some []
  | node :: rest =>
    match parse (assembleURL cfg.scheme node cfg.port) with
    | none => none
    | some u =>
      match parseInitialNodes parse cfg rest with
      | none => none
      | some us => some (u :: us)

/-- Model of `NewAlternatorLiveNodes` (`live_nodes.go` lines 186-221).
Option application is folded into the `cfg` argument; the HTTP client and
context plumbing carry no verified state.  On success the parsed bootstrap
list is stored both as `initialNodes` and as the first published snapshot,
the cursor and deadline are zero, and no idle updater is started. -/
def NewAlternatorLiveNodes (parse : String → Option URL)
    (initialNodes : List String) (cfg : ALNConfig) : Except NewError ALNState :=
  if initialNodes.isEmpty then .error .emptyNodes
  else
    match parseInitialNodes parse cfg initialNodes with
    | none => .error .invalidNodeURI
    | some nodes =>
      .ok { liveNodes := nodes
            initialNodes := nodes
            nextLiveNodeIdx := 0
            cfg := cfg
            nextUpdate := 0
            idleUpdaterStarted := false
            updateSignal := false }

/-- Model of the private `nextNode` (lines 283-289): load the snapshot, fall
back to the bootstrap list when it is empty, increment the shared cursor
(wrapping `uint64` addition, the incremented value is returned), and index
with the incremented cursor modulo the length that was read.  `none` models
the run-time failure of `% 0` when both lists are empty. -/
def nextNode (s : ALNState) : Option (URL × ALNState) :=
  let nodes := if s.liveNodes.isEmpty then s.initialNodes else s.liveNodes
  let idx := (s.nextLiveNodeIdx + 1) % uint64Card
  match nodes[idx % nodes.length]? with
  | none => none
  | some u => some (u, { s with nextLiveNodeIdx := idx })

/-- `n` consecutive sequential `nextNode` calls, collecting the returned
addresses in order. -/
def nextNodes : Nat → ALNState → Option (List URL × ALNState)
  | 0, s => some ([], s)
  | n + 1, s =>
    match nextNode s with
    | none => none
    | some (u, s1) =>
      match nextNodes n s1 with
      | none => none
      | some (us, s2) => some (u :: us, s2)

/-- Model of `triggerUpdate` (lines 223-237), at a given current time `now`
(`time.Now().UTC().Unix()`, whole seconds).  The CAS on `nextUpdate` always
succeeds in the sequential model; the non-blocking send on the buffered
channel leaves a signal pending whether or not one already was. -/
def triggerUpdate (now : Int) (s : ALNState) : ALNState :=
  if s.cfg.updatePeriod ≤ 0 then s
  else if s.nextUpdate < now then
    { s with
      nextUpdate := now + durationSeconds s.cfg.updatePeriod
      updateSignal := true }
  else s

/-- Model of `startIdleUpdater` (lines 239-261).  The returned `Bool` records
whether this call launched the background routine (i.e. won the
`CompareAndSwap(false, true)`); the body of the routine itself is
asynchronous and outside the sequential model. -/
def startIdleUpdater (s : ALNState) : ALNState × Bool :=
  if s.cfg.idleUpdatePeriod ≤ 0 then (s, false)
  else if s.idleUpdaterStarted then (s, false)
  else ({ s with idleUpdaterStarted := true }, true)

/-- Model of the public `Start` (lines 265-267). -/
def Start (s : ALNState) : ALNState × Bool := startIdleUpdater s

/-- Model of the public `NextNode` (lines 277-281): start the idle updater if
needed, run the active-mode trigger, then select the next node.  The `Bool`
records whether this call launched the idle updater. -/
def NextNode (now : Int) (s : ALNState) : Option (URL × ALNState × Bool) :=
  let p := startIdleUpdater s
  let s2 := triggerUpdate now p.1
  match nextNode s2 with
  | none => none
  | some (u, s3) => some (u, s3, p.2)

/-- Model of `nextAsURLWithPath` (lines 291-299): copy the selected node,
overwrite its path, and overwrite its query only when `query` is non-empty. -/
def nextAsURLWithPath (s : ALNState) (path query : String) :
    Option (URL × ALNState) :=
  match nextNode s with
  | none => none
  | some (base, s1) =>
    some ({ base with
            path := path
            rawQuery := if query ≠ "" then query else base.rawQuery }, s1)

/-- The query string built by `nextAsLocalNodesURL` (lines 340-352) from the
configured rack and datacenter. -/
def localNodesQuery (cfg : ALNConfig) : String :=
  let q := if cfg.rack ≠ "" then "rack=" ++ cfg.rack else ""
  if cfg.datacenter ≠ "" then
    (if q ≠ "" then q ++ "&" else q) ++ "dc=" ++ cfg.datacenter
  else q

/-- Model of `nextAsLocalNodesURL` (lines 340-352). -/
def nextAsLocalNodesURL (s : ALNState) : Option (URL × ALNState) :=
  nextAsURLWithPath s "/localnodes" (localNodesQuery s.cfg)

/-- Outcome of reading and decoding the response body:
`readError` models a failing `io.ReadAll`; `bytes d` models a fully read
body, where `d = some hosts` when `json.Unmarshal` decodes it into a string
slice and `d = none` when unmarshalling fails. -/
inductive BodyRead where
  | readError
  | bytes (decoded : Option (List String))
deriving DecidableEq

/-- Outcome of the HTTP GET issued by `getNodes`: a transport error from
`httpClient.Get`, or a response with a status code and a body. -/
inductive HTTPResult where
  | transportError
  | response (status : Nat) (body : BodyRead)
deriving DecidableEq

/-- The error cases of `getNodes`, in the order the code checks them. -/
inductive GetNodesError where
  | transport
  | non200
  | bodyRead
  | badJSON
deriving DecidableEq

/-- The host-parsing loop of `getNodes` (lines 329-336): each host string is
assembled with the configured scheme and port and parsed; a parse failure
`continue`s, skipping that host only. -/
def parseHosts (parse : String → Option URL) (cfg : ALNConfig) :
    List String → List URL
  | [] => []
  | node :: rest =>
    match parse (assembleURL cfg.scheme node cfg.port) with
    | none => parseHosts parse cfg rest
    | some u => u :: parseHosts parse cfg rest

/-- Model of `getNodes` (lines 310-338): transport error, then status check
(`!= 200`), then body read, then JSON decoding, then best-effort host
parsing.  No retry: the function issues exactly one request, whose outcome
is the `resp` argument. -/
def getNodes (parse : String → Option URL) (cfg : ALNConfig)
    (resp : HTTPResult) : Except GetNodesError (List URL) :=
  match resp with
  | .transportError => .error .transport
  | .response status body =>
    if status ≠ 200 then .error .non200
    else
      match body with
      | .readError => .error .bodyRead
      | .bytes none => .error .badJSON
      | .bytes (some hosts) => .ok (parseHosts parse cfg hosts)

/-- Model of `UpdateLiveNodes` (lines 302-308): pick the discovery endpoint
(advancing the round-robin cursor), run `getNodes` on it (outcome `resp`),
and store the result as the new snapshot if and only if the call succeeded
and the list is non-empty; the error, if any, is returned as-is. -/
def UpdateLiveNodes (parse : String → Option URL) (s : ALNState)
    (resp : HTTPResult) : Option (ALNState × Option GetNodesError) :=
  match nextAsLocalNodesURL s with
  | none => none
  | some (_, s1) =>
    match getNodes parse s1.cfg resp with
    | .error e => some (s1, some e)
    | .ok newNodes =>
      some (if newNodes.isEmpty then s1 else { s1 with liveNodes := newNodes },
            none)

/-- Errors of `CheckIfRackAndDatacenterSetCorrectly`: a wrapped discovery
error (`failed to read list of nodes: ...`) or the empty-list
configuration error. -/
inductive CheckError where
  | discovery (e : GetNodesError)
  | emptyList
deriving DecidableEq

/-- Model of `CheckIfRackAndDatacenterSetCorrectly` (lines 356-368). -/
def CheckIfRackAndDatacenterSetCorrectly (parse : String → Option URL)
    (s : ALNState) (resp : HTTPResult) : Option (ALNState × Option CheckError) :=
  if s.cfg.rack = "" ∧ s.cfg.datacenter = "" then some (s, none)
  else
    match nextAsLocalNodesURL s with
    | none => none
    | some (_, s1) =>
      match getNodes parse s1.cfg resp with
      | .error e => some (s1, some (.discovery e))
      | .ok newNodes =>
        if newNodes.isEmpty then some (s1, some .emptyList)
        else some (s1, none)

/-- Errors of `CheckIfRackDatacenterFeatureIsSupported`: a propagated
discovery error or the `host returned empty list` error. -/
inductive ProbeError where
  | discovery (e : GetNodesError)
  | emptyList
deriving DecidableEq

/-- The first two statements of `CheckIfRackDatacenterFeatureIsSupported`
(lines 373-374): the unscoped endpoint is the first round-robin selection,
the fake-rack endpoint is the second. -/
def featureProbeURIs (s : ALNState) : Option ((URL × URL) × ALNState) :=
  match nextAsURLWithPath s "/localnodes" "" with
  | none => none
  | some (baseURI, s1) =>
    match nextAsURLWithPath s1 "/localnodes" "rack=fakeRack" with
    | none => none
    | some (fakeRackURI, s2) => some ((baseURI, fakeRackURI), s2)

/-- Model of `CheckIfRackDatacenterFeatureIsSupported` (lines 372-389):
build the two endpoints, query the fake-rack one first (outcome
`fakeResp`), then the unscoped one (outcome `baseResp`); fail on either
error or on an empty unscoped list, else report whether the lengths
differ. -/
def CheckIfRackDatacenterFeatureIsSupported (parse : String → Option URL)
    (s : ALNState) (fakeResp baseResp : HTTPResult) :
    Option (ALNState × Except ProbeError Bool) :=
  match featureProbeURIs s with
  | none => none
  | some (_, s2) =>
    match getNodes parse s2.cfg fakeResp with
    | .error e => some (s2, .error (.discovery e))
    | .ok hostsWithFakeRack =>
      match getNodes parse s2.cfg baseResp with
      | .error e => some (s2, .error (.discovery e))
      | .ok hostsWithoutRack =>
        if hostsWithoutRack.isEmpty then some (s2, .error .emptyList)
        else
          some (s2, .ok (hostsWithFakeRack.length != hostsWithoutRack.length))

/-- The public entry points that invoke `startIdleUpdater`: `Start` and
`NextNode` (which also needs the current time for its active-mode
trigger). -/
inductive APICall where
  | start
  | next (now : Int)
deriving DecidableEq

/-- Run a sequence of public calls, counting how many of them launched the
idle-updater background routine.  `none` models a run-time failure inside
one of the calls. -/
def runCalls : List APICall → ALNState → Option (ALNState × Nat)
  | [], s => some (s, 0)
  | .start :: rest, s =>
    match Start s with
    | (s1, launched) =>
      match runCalls rest s1 with
      | none => none
      | some (s2, n) => some (s2, (if launched then 1 else 0) + n)
  | .next now :: rest, s =>
    match NextNode now s with
    | none => none
    | some (_, s1, launched) =>
      match runCalls rest s1 with
      | none => none
      | some (s2, n) => some (s2, (if launched then 1 else 0) + n)

/-! ### Concrete objects used by witnesses and counterexamples -/

/-- A concrete stand-in for `url.Parse` on assembled node URLs, used to
instantiate the `parse` parameter in witnesses: it rejects any string
containing a space (as Go's `url.Parse` rejects a space in a host) and
otherwise records the assembled string as the host. -/
def demoParse (str : String) : Option URL :=
  if str.data.any (fun c => c == ' ') then none
  else some { scheme := "", host := str, path := "", rawQuery := "" }

/-- A node address as stored by the directory. -/
def urlOf (h : String) : URL :=
  { scheme := "http", host := h, path := "", rawQuery := "" }

/-- The default configuration (scheme `http`, port 8080, no rack or
datacenter, 10s active period, 1min idle period). -/
def cfgPlain : ALNConfig :=
  { scheme := "http", port := 8080, rack := "", datacenter := ""
    updatePeriod := 10000000000, idleUpdatePeriod := 60000000000 }

/-- The default configuration with a rack configured. -/
def cfgRack : ALNConfig := { cfgPlain with rack := "r1" }

/-- The default configuration with the active period set to zero. -/
def cfgNoActive : ALNConfig := { cfgPlain with updatePeriod := 0 }

/-- The default configuration with the idle period set to zero. -/
def cfgNoIdle : ALNConfig := { cfgPlain with idleUpdatePeriod := 0 }

/-- A freshly constructed directory state over the given nodes. -/
def mkState (cfg : ALNConfig) (nodes : List URL) : ALNState :=
  { liveNodes := nodes, initialNodes := nodes, nextLiveNodeIdx := 0
    cfg := cfg, nextUpdate := 0, idleUpdaterStarted := false
    updateSignal := false }

/-- A fresh two-node directory. -/
def stateAB : ALNState := mkState cfgPlain [urlOf "a:8080", urlOf "b:8080"]

/-- A three-node directory whose cursor sits just below the `uint64`
wraparound. -/
def stateWrap : ALNState :=
  { mkState cfgPlain [urlOf "a:8080", urlOf "b:8080", urlOf "c:8080"] with
    nextLiveNodeIdx := uint64Card - 2 }

/-- The node address `demoParse` produces for bootstrap host `"a"` under
`cfgPlain`. -/
def demoNode : URL :=
  { scheme := "", host := "http://a:8080", path := "", rawQuery := "" }

/-- The directory state produced by constructing over the single bootstrap
host `"a"` with `demoParse` and `cfgPlain`. -/
def stateA : ALNState := mkState cfgPlain [demoNode]

/-- A fresh single-node directory with a configured rack. -/
def stateR : ALNState := mkState cfgRack [urlOf "a:8080"]

/-! ### Structural lemmas about the operations -/

/-- The list `nextNode` selects from is non-empty whenever the bootstrap
list is non-empty. -/
theorem selection_list_ne_nil (s : ALNState) (h : s.initialNodes ≠ []) :
    (if s.liveNodes.isEmpty then s.initialNodes else s.liveNodes) ≠ [] := by
  rcases hv : s.liveNodes.isEmpty with _ | _
  · simpa [hv] using List.isEmpty_eq_false.mp hv
  · simpa [hv] using h

/-- Success form of `nextNode`: when the selection list is non-empty, the
call returns the entry at the incremented cursor modulo the length read,
and the new state only advances the cursor. -/
theorem nextNode_of_ne_nil (s : ALNState)
    (h : (if s.liveNodes.isEmpty then s.initialNodes else s.liveNodes) ≠ []) :
    ∃ hlt, nextNode s =
      some ((if s.liveNodes.isEmpty then s.initialNodes else s.liveNodes).get
              ⟨((s.nextLiveNodeIdx + 1) % uint64Card) %
                 (if s.liveNodes.isEmpty then s.initialNodes
                  else s.liveNodes).length, hlt⟩,
            { s with nextLiveNodeIdx := (s.nextLiveNodeIdx + 1) % uint64Card }) := by
  have hpos : 0 < (if s.liveNodes.isEmpty then s.initialNodes
                   else s.liveNodes).length := List.length_pos.mpr h
  have hlt := Nat.mod_lt ((s.nextLiveNodeIdx + 1) % uint64Card) hpos
  refine ⟨hlt, ?_⟩
  simp only [nextNode]
  rw [List.getElem?_eq_getElem hlt]
  simp [List.get_eq_getElem]

/-- `nextNode` only advances the cursor: every other field is preserved. -/
theorem nextNode_state (s : ALNState) (u : URL) (s1 : ALNState)
    (h : nextNode s = some (u, s1)) :
    s1 = { s with nextLiveNodeIdx := (s.nextLiveNodeIdx + 1) % uint64Card } := by
  simp only [nextNode] at h
  split at h <;> try split at h
  all_goals
    first
      | (injection h with h1; injection h1 with h2 h3; exact h3.symm)
      | injection h

/-- `nextAsURLWithPath` only advances the cursor. -/
theorem nextAsURLWithPath_state (s : ALNState) (p q : String) (u : URL)
    (s1 : ALNState) (h : nextAsURLWithPath s p q = some (u, s1)) :
    s1 = { s with nextLiveNodeIdx := (s.nextLiveNodeIdx + 1) % uint64Card } := by
  unfold nextAsURLWithPath at h
  rcases hn : nextNode s with _ | ⟨w, sw⟩
  · rw [hn] at h; exact absurd h (by simp)
  · rw [hn] at h
    have := ((Prod.mk.injEq _ _ _ _).mp (Option.some.injEq _ _ |>.mp h)).2
    exact this ▸ nextNode_state s w sw hn

/-- The bootstrap-parsing loop fails exactly when some host fails to parse. -/
theorem parseInitialNodes_eq_none_iff (parse : String → Option URL)
    (cfg : ALNConfig) (hosts : List String) :
    parseInitialNodes parse cfg hosts = none ↔
      ∃ host ∈ hosts, parse (assembleURL cfg.scheme host cfg.port) = none := by
  induction hosts with
  | nil => simp [parseInitialNodes]
  | cons h t ih =>
    unfold parseInitialNodes
    rcases hp : parse (assembleURL cfg.scheme h cfg.port) with _ | u
    · simp [hp]
    · rcases ht : parseInitialNodes parse cfg t with _ | us <;>
        simp [hp, ht, ← ih]

/-- The bootstrap-parsing loop preserves the number of hosts. -/
theorem parseInitialNodes_length (parse : String → Option URL)
    (cfg : ALNConfig) (hosts : List String) (nodes : List URL)
    (h : parseInitialNodes parse cfg hosts = some nodes) :
    nodes.length = hosts.length := by
  induction hosts generalizing nodes with
  | nil =>
    unfold parseInitialNodes at h
    obtain rfl : ([] : List URL) = nodes := Option.some.injEq _ _ |>.mp h
    rfl
  | cons hd t ih =>
    unfold parseInitialNodes at h
    rcases hp : parse (assembleURL cfg.scheme hd cfg.port) with _ | u <;>
      rw [hp] at h
    · exact absurd h (by simp)
    · rcases ht : parseInitialNodes parse cfg t with _ | us <;> rw [ht] at h
      · exact absurd h (by simp)
      · cases Option.some.injEq _ _ |>.mp h
        simpa using ih us ht

/-- The best-effort host-parsing loop of `getNodes` is `filterMap`. -/
theorem parseHosts_eq_filterMap (parse : String → Option URL)
    (cfg : ALNConfig) (hosts : List String) :
    parseHosts parse cfg hosts =
      hosts.filterMap (fun h => parse (assembleURL cfg.scheme h cfg.port)) := by
  induction hosts with
  | nil => rfl
  | cons h t ih =>
    unfold parseHosts
    rcases hp : parse (assembleURL cfg.scheme h cfg.port) with _ | u <;>
      simp [hp, ih]

/-! ### Round-robin arithmetic -/

/-- Among any `M` consecutive integers, exactly one is congruent to `j`
modulo `M`. -/
theorem countP_mod_range'_block (M j : Nat) (hj : j < M) (a : Nat) :
    (List.range' a M).countP (fun x => x % M == j) = 1 := by
  induction a with
  | zero =>
    rw [← List.range_eq_range']
    have hcongr : (List.range M).countP (fun x => x % M == j) =
        (List.range M).countP (fun x => x == j) := by
      refine List.countP_congr ?_
      intro x hx
      rw [Nat.mod_eq_of_lt (List.mem_range.mp hx)]
    rw [hcongr]
    exact List.count_eq_one_of_mem (List.nodup_range M) (List.mem_range.mpr hj)
  | succ a ih =>
    obtain ⟨m, rfl⟩ : ∃ m, M = m + 1 := ⟨M - 1, by omega⟩
    rw [List.range'_succ, List.countP_cons] at ih
    rw [List.range'_concat, List.countP_append, List.countP_cons,
        List.countP_nil]
    have hmod : ((a + 1 + 1 * m) % (m + 1) == j) = (a % (m + 1) == j) := by
      have h1 : a + 1 + 1 * m = a + (m + 1) := by ring
      rw [h1, Nat.add_mod_right]
    rw [hmod]
    omega

/-- Among `k * M` consecutive integers, exactly `k` are congruent to `j`
modulo `M`. -/
theorem countP_mod_range'_mul (M j : Nat) (hj : j < M) (a k : Nat) :
    (List.range' a (k * M)).countP (fun x => x % M == j) = k := by
  induction k generalizing a with
  | zero => simp
  | succ k ih =>
    rw [Nat.succ_mul, ← List.range'_append a M (k * M) 1, List.countP_append,
        countP_mod_range'_block M j hj a, ih (a + 1 * M)]
    omega

/-- Closed form of `n` sequential `nextNode` calls over a fixed non-empty
snapshot, as long as the `uint64` cursor does not wrap: the calls return
the snapshot entries at positions `(c+1) % M, …, (c+n) % M` and advance the
cursor to `c + n`. -/
theorem nextNodes_closed_form (nodes : List URL) (hne : nodes ≠ [])
    (n : Nat) : ∀ s : ALNState, s.liveNodes = nodes →
    s.nextLiveNodeIdx + n < uint64Card →
    nextNodes n s =
      some ((List.range' (s.nextLiveNodeIdx + 1) n).map
              (fun x => nodes.get
                ⟨x % nodes.length, Nat.mod_lt x (List.length_pos.mpr hne)⟩),
            { s with nextLiveNodeIdx := s.nextLiveNodeIdx + n }) := by
  induction n with
  | zero =>
    intro s _ _
    simp [nextNodes]
  | succ n ih =>
    intro s hlive hwrap
    subst hlive
    have hEmpty : s.liveNodes.isEmpty = false := List.isEmpty_eq_false.mpr hne
    have hpos : 0 < s.liveNodes.length := List.length_pos.mpr hne
    have hidx : (s.nextLiveNodeIdx + 1) % uint64Card = s.nextLiveNodeIdx + 1 :=
      Nat.mod_eq_of_lt (by omega)
    have hlt : (s.nextLiveNodeIdx + 1) % s.liveNodes.length <
        s.liveNodes.length := Nat.mod_lt _ hpos
    have hstep : nextNode s =
        some (s.liveNodes.get
                ⟨(s.nextLiveNodeIdx + 1) % s.liveNodes.length, hlt⟩,
              { s with nextLiveNodeIdx := s.nextLiveNodeIdx + 1 }) := by
      simp only [nextNode, hEmpty, Bool.false_eq_true, if_false, hidx]
      rw [List.getElem?_eq_getElem hlt]
      simp [List.get_eq_getElem]
    have hrec := ih { s with nextLiveNodeIdx := s.nextLiveNodeIdx + 1 } rfl
      (by show s.nextLiveNodeIdx + 1 + n < uint64Card; omega)
    simp only [nextNodes, hstep, hrec, List.range'_succ, List.map_cons]
    have harr : s.nextLiveNodeIdx + 1 + n = s.nextLiveNodeIdx + (n + 1) := by
      omega
    rw [harr]

/-- `startIdleUpdater` touches only the started-flag. -/
theorem startIdleUpdater_preserves (s : ALNState) :
    (startIdleUpdater s).1.liveNodes = s.liveNodes ∧
    (startIdleUpdater s).1.initialNodes = s.initialNodes ∧
    (startIdleUpdater s).1.nextLiveNodeIdx = s.nextLiveNodeIdx ∧
    (startIdleUpdater s).1.cfg = s.cfg ∧
    (startIdleUpdater s).1.nextUpdate = s.nextUpdate ∧
    (startIdleUpdater s).1.updateSignal = s.updateSignal := by
  unfold startIdleUpdater
  split
  · exact ⟨rfl, rfl, rfl, rfl, rfl, rfl⟩
  · split
    · exact ⟨rfl, rfl, rfl, rfl, rfl, rfl⟩
    · exact ⟨rfl, rfl, rfl, rfl, rfl, rfl⟩

/-- The three behaviours of `startIdleUpdater`. -/
theorem startIdleUpdater_cases (s : ALNState) :
    (s.cfg.idleUpdatePeriod ≤ 0 → startIdleUpdater s = (s, false)) ∧
    (0 < s.cfg.idleUpdatePeriod → s.idleUpdaterStarted = true →
      startIdleUpdater s = (s, false)) ∧
    (0 < s.cfg.idleUpdatePeriod → s.idleUpdaterStarted = false →
      startIdleUpdater s = ({ s with idleUpdaterStarted := true }, true)) := by
  refine ⟨fun h1 => ?_, fun h1 h2 => ?_, fun h1 h2 => ?_⟩
  · simp [startIdleUpdater, h1]
  · simp [startIdleUpdater, show ¬ s.cfg.idleUpdatePeriod ≤ 0 by omega, h2]
  · simp [startIdleUpdater, show ¬ s.cfg.idleUpdatePeriod ≤ 0 by omega, h2]

/-- `triggerUpdate` touches only the deadline and the pending signal. -/
theorem triggerUpdate_preserves (now : Int) (s : ALNState) :
    (triggerUpdate now s).liveNodes = s.liveNodes ∧
    (triggerUpdate now s).initialNodes = s.initialNodes ∧
    (triggerUpdate now s).nextLiveNodeIdx = s.nextLiveNodeIdx ∧
    (triggerUpdate now s).cfg = s.cfg ∧
    (triggerUpdate now s).idleUpdaterStarted = s.idleUpdaterStarted := by
  unfold triggerUpdate
  split
  · exact ⟨rfl, rfl, rfl, rfl, rfl⟩
  · split
    · exact ⟨rfl, rfl, rfl, rfl, rfl⟩
    · exact ⟨rfl, rfl, rfl, rfl, rfl⟩

/-- A successful `NextNode` reports the launch decision of its
`startIdleUpdater` step, and preserves the started-flag computed there and
the configuration. -/
theorem NextNode_started (now : Int) (s : ALNState) (u : URL) (s1 : ALNState)
    (launched : Bool) (h : NextNode now s = some (u, s1, launched)) :
    launched = (startIdleUpdater s).2 ∧
    s1.idleUpdaterStarted = (startIdleUpdater s).1.idleUpdaterStarted ∧
    s1.cfg = s.cfg := by
  simp only [NextNode] at h
  rcases hn : nextNode (triggerUpdate now (startIdleUpdater s).1) with _ | ⟨w, sw⟩ <;>
    rw [hn] at h
  · injection h
  · injection h with h1
    injection h1 with h2 h3
    injection h3 with h4 h5
    subst h2 h4 h5
    have hst := nextNode_state _ _ _ hn
    subst hst
    refine ⟨rfl, ?_, ?_⟩
    · simpa using (triggerUpdate_preserves now (startIdleUpdater s).1).2.2.2.2
    · have hc := (triggerUpdate_preserves now (startIdleUpdater s).1).2.2.2.1
      simpa [hc] using (startIdleUpdater_preserves s).2.2.2.1

/-- Over any call sequence, the number of idle-updater launches is bounded
by one when the flag starts clear and zero when it is already set, and is
always zero when the idle period is non-positive. -/
theorem runCalls_invariant (cs : List APICall) :
    ∀ s s1 n, runCalls cs s = some (s1, n) →
      n ≤ (if s.idleUpdaterStarted then 0 else 1) ∧
      (s.cfg.idleUpdatePeriod ≤ 0 → n = 0) := by
  induction cs with
  | nil =>
    intro s s1 n h
    simp only [runCalls] at h
    injection h with h1
    injection h1 with h2 h3
    subst h3
    exact ⟨by split <;> omega, fun _ => rfl⟩
  | cons c rest ih =>
    intro s s1 n h
    have step : ∀ sB launched n2, runCalls rest sB = some (s1, n2) →
        launched = (startIdleUpdater s).2 →
        sB.idleUpdaterStarted = (startIdleUpdater s).1.idleUpdaterStarted →
        sB.cfg = s.cfg →
        n = (if launched then 1 else 0) + n2 →
        n ≤ (if s.idleUpdaterStarted then 0 else 1) ∧
        (s.cfg.idleUpdatePeriod ≤ 0 → n = 0) := by
      intro sB launched n2 hr hlq hstq hcfgq hn
      obtain ⟨hle0, hidle0, hlaunch⟩ := startIdleUpdater_cases s
      have hrec := ih _ _ _ hr
      by_cases hper : s.cfg.idleUpdatePeriod ≤ 0
      · rw [hle0 hper] at hlq hstq
        simp at hlq
        have hn2 : n2 = 0 := hrec.2 (by rw [hcfgq]; exact hper)
        subst hlq hn2 hn
        exact ⟨Nat.zero_le _, fun _ => rfl⟩
      · rcases hstt : s.idleUpdaterStarted with _ | _
        · rw [hlaunch (by omega) hstt] at hlq hstq
          simp at hlq hstq
          subst hlq hn
          have hb : n2 ≤ 0 := by
            have h1 := hrec.1
            rw [hstq] at h1
            simpa using h1
          simp only [hstt]
          exact ⟨by show 1 + n2 ≤ 1; omega, fun hc => absurd hc hper⟩
        · rw [hidle0 (by omega) hstt] at hlq hstq
          simp at hlq
          subst hlq hn
          have hb : n2 ≤ 0 := by
            have h1 := hrec.1
            rw [hstq] at h1
            simp at h1
            rw [hstt] at h1
            simpa using h1
          simp only [hstt]
          exact ⟨by show 0 + n2 ≤ 0; omega, fun hc => absurd hc hper⟩
    cases c with
    | start =>
      simp only [runCalls, Start] at h
      rcases hr : runCalls rest (startIdleUpdater s).1 with _ | ⟨s2, n2⟩ <;>
        rw [hr] at h
      · injection h
      · injection h with h1
        injection h1 with h2 h3
        subst h2
        exact step (startIdleUpdater s).1 (startIdleUpdater s).2 n2 hr rfl rfl
          ((startIdleUpdater_preserves s).2.2.2.1) h3.symm
    | next now =>
      simp only [runCalls] at h
      rcases hn : NextNode now s with _ | ⟨u, sB, launched⟩ <;> rw [hn] at h
      · injection h
      · have h2 : (match runCalls rest sB with
            | none => none
            | some (s2, n2) =>
              some (s2, (if launched then 1 else 0) + n2)) = some (s1, n) := h
        rcases hr : runCalls rest sB with _ | ⟨s2, n2⟩ <;> rw [hr] at h2
        · injection h2
        · injection h2 with h3
          injection h3 with h4 h5
          subst h4
          obtain ⟨hlq, hstq, hcfgq⟩ := NextNode_started now s u sB launched hn
          exact step sB launched n2 hr hlq hstq hcfgq h5.symm

/-- Characterization of `UpdateLiveNodes` under the construction invariant
(non-empty bootstrap list): the selection of the discovery endpoint
advances the cursor, and the snapshot is replaced exactly when the
discovery result is a non-empty list; the discovery error, if any, is
returned unchanged. -/
theorem UpdateLiveNodes_eq (parse : String → Option URL) (s : ALNState)
    (resp : HTTPResult) (h : s.initialNodes ≠ []) :
    UpdateLiveNodes parse s resp =
      some (match getNodes parse s.cfg resp with
            | .error e =>
              ({ s with nextLiveNodeIdx :=
                   (s.nextLiveNodeIdx + 1) % uint64Card }, some e)
            | .ok newNodes =>
              (if newNodes.isEmpty then
                 { s with nextLiveNodeIdx :=
                     (s.nextLiveNodeIdx + 1) % uint64Card }
               else
                 { s with
                   nextLiveNodeIdx := (s.nextLiveNodeIdx + 1) % uint64Card,
                   liveNodes := newNodes }, none)) := by
  obtain ⟨hlt, hstep⟩ := nextNode_of_ne_nil s (selection_list_ne_nil s h)
  unfold UpdateLiveNodes nextAsLocalNodesURL nextAsURLWithPath
  rw [hstep]
  rcases hg : getNodes parse s.cfg resp with e | newNodes <;> simp [hg]

/-- Characterization of `CheckIfRackAndDatacenterSetCorrectly` when a rack
or datacenter is configured: one discovery endpoint is selected (advancing
the cursor); a discovery error is wrapped, an empty result is a
configuration error, a non-empty result is success. -/
theorem CheckRackDC_eq (parse : String → Option URL)
    (s : ALNState) (resp : HTTPResult) (h : s.initialNodes ≠ [])
    (hconf : ¬(s.cfg.rack = "" ∧ s.cfg.datacenter = "")) :
    CheckIfRackAndDatacenterSetCorrectly parse s resp =
      some ({ s with nextLiveNodeIdx := (s.nextLiveNodeIdx + 1) % uint64Card },
            match getNodes parse s.cfg resp with
            | .error e => some (.discovery e)
            | .ok nodes => if nodes.isEmpty then some .emptyList else none) := by
  obtain ⟨hlt, hstep⟩ := nextNode_of_ne_nil s (selection_list_ne_nil s h)
  unfold CheckIfRackAndDatacenterSetCorrectly nextAsLocalNodesURL
    nextAsURLWithPath
  rw [if_neg hconf, hstep]
  rcases hg : getNodes parse s.cfg resp with e | nodes <;> simp [hg]
  by_cases he : nodes = [] <;> simp [he]

/-! ### Claim theorems -/

/-- **C1.** For every directory whose bootstrap list is non-empty (which
construction guarantees and no operation changes), `nextNode` never fails:
it selects the live snapshot, or the bootstrap list when the snapshot is
empty, indexes it with the incremented shared cursor modulo the length that
was read (always in bounds), returns that member of the selected list, and
only advances the cursor. -/
theorem nextNode_total_in_selection (s : ALNState) (h : s.initialNodes ≠ []) :
    ∃ u s1, nextNode s = some (u, s1) ∧
      u ∈ (if s.liveNodes.isEmpty then s.initialNodes else s.liveNodes) ∧
      (∃ hlt, u = (if s.liveNodes.isEmpty then s.initialNodes
                   else s.liveNodes).get
          ⟨((s.nextLiveNodeIdx + 1) % uint64Card) %
             (if s.liveNodes.isEmpty then s.initialNodes
              else s.liveNodes).length, hlt⟩) ∧
      s1 = { s with nextLiveNodeIdx := (s.nextLiveNodeIdx + 1) % uint64Card } := by
  obtain ⟨hlt, hstep⟩ := nextNode_of_ne_nil s (selection_list_ne_nil s h)
  exact ⟨_, _, hstep, List.get_mem _ _ _, ⟨hlt, rfl⟩, rfl⟩

/-- Witness for C1 at a concrete two-node directory. -/
theorem nextNode_total_in_selection_witness :
    ∃ u s1, nextNode stateAB = some (u, s1) ∧
      u ∈ (if stateAB.liveNodes.isEmpty then stateAB.initialNodes
           else stateAB.liveNodes) ∧
      (∃ hlt, u = (if stateAB.liveNodes.isEmpty then stateAB.initialNodes
                   else stateAB.liveNodes).get
          ⟨((stateAB.nextLiveNodeIdx + 1) % uint64Card) %
             (if stateAB.liveNodes.isEmpty then stateAB.initialNodes
              else stateAB.liveNodes).length, hlt⟩) ∧
      s1 = { stateAB with
             nextLiveNodeIdx := (stateAB.nextLiveNodeIdx + 1) % uint64Card } :=
  nextNode_total_in_selection stateAB (by decide)

/-- **C4.** The active-mode trigger invoked by `NextNode`: with a
non-positive active period it changes nothing and signals nothing;
otherwise, when the stored deadline is earlier than `now`, the deadline
becomes `now` plus the active period in whole seconds and a refresh signal
is left pending, and when the deadline has not passed, nothing changes.
Consequently `NextNode` with active period zero never changes the deadline
or the pending signal. -/
theorem triggerUpdate_spec (now : Int) (s : ALNState) :
    (s.cfg.updatePeriod ≤ 0 → triggerUpdate now s = s) ∧
    (0 < s.cfg.updatePeriod → s.nextUpdate < now →
      triggerUpdate now s =
        { s with
          nextUpdate := now + durationSeconds s.cfg.updatePeriod,
          updateSignal := true }) ∧
    (0 < s.cfg.updatePeriod → ¬ s.nextUpdate < now → triggerUpdate now s = s) ∧
    (s.cfg.updatePeriod ≤ 0 → ∀ u s1 launched,
      NextNode now s = some (u, s1, launched) →
      s1.nextUpdate = s.nextUpdate ∧ s1.updateSignal = s.updateSignal) := by
  refine ⟨fun h1 => ?_, fun h1 h2 => ?_, fun h1 h2 => ?_,
    fun h1 u s1 launched h => ?_⟩
  · simp [triggerUpdate, h1]
  · simp [triggerUpdate, show ¬ s.cfg.updatePeriod ≤ 0 by omega, h2]
  · simp [triggerUpdate, show ¬ s.cfg.updatePeriod ≤ 0 by omega, h2]
  · simp only [NextNode] at h
    rcases hn : nextNode (triggerUpdate now (startIdleUpdater s).1) with
      _ | ⟨w, sw⟩ <;> rw [hn] at h
    · injection h
    · injection h with hp
      injection hp with hu hrest
      injection hrest with hs hl
      subst hu hs hl
      have hst := nextNode_state _ _ _ hn
      subst hst
      have hcfg := (startIdleUpdater_preserves s).2.2.2.1
      have htr : triggerUpdate now (startIdleUpdater s).1 =
          (startIdleUpdater s).1 := by
        unfold triggerUpdate
        rw [if_pos (by rw [hcfg]; exact h1)]
      constructor
      · show (triggerUpdate now (startIdleUpdater s).1).nextUpdate =
          s.nextUpdate
        rw [htr]
        exact (startIdleUpdater_preserves s).2.2.2.2.1
      · show (triggerUpdate now (startIdleUpdater s).1).updateSignal =
          s.updateSignal
        rw [htr]
        exact (startIdleUpdater_preserves s).2.2.2.2.2

/-- Witness for C4: an expired deadline advances to `now + 10` seconds and
leaves a signal pending. -/
theorem triggerUpdate_spec_witness :
    triggerUpdate 100 stateAB =
      { stateAB with
        nextUpdate := 100 + durationSeconds stateAB.cfg.updatePeriod,
        updateSignal := true } :=
  (triggerUpdate_spec 100 stateAB).2.1 (by decide) (by decide)

/-- **C9.** Among any sequence of `Start` and `NextNode` calls on a fresh
directory, at most one call launches the idle-refresh background routine
(the first one to flip the started flag), and none does when the configured
idle update period is non-positive. -/
theorem idleUpdater_started_at_most_once (cs : List APICall) (s : ALNState)
    (hfresh : s.idleUpdaterStarted = false) (s1 : ALNState) (n : Nat)
    (h : runCalls cs s = some (s1, n)) :
    n ≤ 1 ∧ (s.cfg.idleUpdatePeriod ≤ 0 → n = 0) := by
  have hinv := runCalls_invariant cs s s1 n h
  refine ⟨?_, hinv.2⟩
  have hb := hinv.1
  rw [hfresh] at hb
  simpa using hb

/-- Witness for C9: a `Start`, a `NextNode` and another `Start` on a fresh
two-node directory launch the idle updater exactly once. -/
theorem idleUpdater_started_at_most_once_witness :
    1 ≤ 1 ∧ (stateAB.cfg.idleUpdatePeriod ≤ 0 → 1 = 0) :=
  idleUpdater_started_at_most_once [.start, .next 5, .start] stateAB
    (by decide)
    { liveNodes := [urlOf "a:8080", urlOf "b:8080"]
      initialNodes := [urlOf "a:8080", urlOf "b:8080"]
      nextLiveNodeIdx := 1, cfg := cfgPlain, nextUpdate := 15
      idleUpdaterStarted := true, updateSignal := true } 1 (by decide)

/-- **C5.** `getNodes` succeeds exactly when the transport succeeds, the
status is 200 and the body decodes as a JSON array of strings (any other
outcome is an error, with no internal retry), and on success it returns the
hosts that parse after being combined with the configured scheme and port,
silently skipping each host string that fails to parse. -/
theorem getNodes_spec (parse : String → Option URL) (cfg : ALNConfig)
    (resp : HTTPResult) :
    ((∃ nodes, getNodes parse cfg resp = .ok nodes) ↔
      ∃ hosts, resp = .response 200 (.bytes (some hosts))) ∧
    (∀ hosts, resp = .response 200 (.bytes (some hosts)) →
      getNodes parse cfg resp =
        .ok (hosts.filterMap
              (fun h => parse (assembleURL cfg.scheme h cfg.port)))) := by
  cases resp with
  | transportError => simp [getNodes]
  | response status body =>
    by_cases hst : status = 200
    · subst hst
      cases body with
      | readError => simp [getNodes]
      | bytes d =>
        cases d with
        | none => simp [getNodes]
        | some hosts => simp [getNodes, parseHosts_eq_filterMap]
    · simp [getNodes, hst]

/-- Witness for C5: a 200 response with hosts `["n1", "n 2"]` yields the
parsed first host and skips the malformed second one. -/
theorem getNodes_spec_witness :
    getNodes demoParse cfgPlain (.response 200 (.bytes (some ["n1", "n 2"]))) =
      .ok (["n1", "n 2"].filterMap
            (fun h => demoParse (assembleURL cfgPlain.scheme h cfgPlain.port))) :=
  (getNodes_spec demoParse cfgPlain
    (.response 200 (.bytes (some ["n1", "n 2"])))).2 ["n1", "n 2"] rfl

/-- **C10.** When discovery succeeds with an empty node list — e.g. when the
JSON array is non-empty but every host fails to parse — `UpdateLiveNodes`
leaves the snapshot unchanged and returns no error, exactly as it does
after a successful snapshot replacement, so the two outcomes are
indistinguishable by the returned error alone. -/
theorem update_empty_silent (parse : String → Option URL) (s : ALNState)
    (resp : HTTPResult) (h : s.initialNodes ≠ []) :
    (getNodes parse s.cfg resp = .ok [] →
      UpdateLiveNodes parse s resp =
        some ({ s with
                nextLiveNodeIdx := (s.nextLiveNodeIdx + 1) % uint64Card },
              none)) ∧
    (∀ nodes, getNodes parse s.cfg resp = .ok nodes → nodes ≠ [] →
      UpdateLiveNodes parse s resp =
        some ({ s with
                nextLiveNodeIdx := (s.nextLiveNodeIdx + 1) % uint64Card,
                liveNodes := nodes }, none)) := by
  have heq := UpdateLiveNodes_eq parse s resp h
  constructor
  · intro hg
    rw [heq, hg]
    simp
  · intro nodes hg hne
    rw [heq, hg]
    simp [hne]

/-- Witness for C10: a 200 response whose only host string fails to parse
produces a silent no-op with no error. -/
theorem update_empty_silent_witness :
    UpdateLiveNodes demoParse stateAB
        (.response 200 (.bytes (some ["bad host"]))) =
      some ({ stateAB with
              nextLiveNodeIdx := (stateAB.nextLiveNodeIdx + 1) % uint64Card },
            none) :=
  (update_empty_silent demoParse stateAB
      (.response 200 (.bytes (some ["bad host"]))) (by decide)).1 rfl


/-- **C2.** The published snapshot is never empty: construction publishes
the (non-empty) parsed bootstrap list, and `UpdateLiveNodes` replaces the
snapshot exactly when the discovered list is non-empty — an empty discovery
result (or a failed one) leaves the previous snapshot in place, so a
non-empty snapshot stays non-empty. -/
theorem snapshot_never_empty (parse : String → Option URL) (cfg : ALNConfig)
    (hosts : List String) (s : ALNState) (resp : HTTPResult) :
    (∀ s0, NewAlternatorLiveNodes parse hosts cfg = .ok s0 →
      s0.liveNodes ≠ []) ∧
    (s.initialNodes ≠ [] → ∀ s1 e,
      UpdateLiveNodes parse s resp = some (s1, e) →
      s1.liveNodes = (match getNodes parse s.cfg resp with
                      | .ok newNodes =>
                        if newNodes.isEmpty then s.liveNodes else newNodes
                      | .error _ => s.liveNodes) ∧
      (s.liveNodes ≠ [] → s1.liveNodes ≠ [])) := by
  constructor
  · intro s0 h0
    unfold NewAlternatorLiveNodes at h0
    by_cases hemp : hosts.isEmpty
    · rw [if_pos hemp] at h0
      injection h0
    · rw [if_neg hemp] at h0
      rcases hp : parseInitialNodes parse cfg hosts with _ | nodes <;>
        rw [hp] at h0
      · injection h0
      · injection h0 with h0'
        subst h0'
        intro hc
        have hc' : nodes = [] := hc
        have hlen := parseInitialNodes_length parse cfg hosts nodes hp
        rw [hc'] at hlen
        have hhosts : hosts ≠ [] := by simpa using hemp
        exact hhosts (List.length_eq_zero.mp hlen.symm)
  · intro hinit s1 e hup
    rw [UpdateLiveNodes_eq parse s resp hinit] at hup
    rcases hg : getNodes parse s.cfg resp with err | newNodes
    · rw [hg] at hup
      simp only [Option.some.injEq, Prod.mk.injEq] at hup
      obtain ⟨h2, h3⟩ := hup
      subst h2
      exact ⟨rfl, fun hl => hl⟩
    · rw [hg] at hup
      simp only [Option.some.injEq, Prod.mk.injEq] at hup
      obtain ⟨h2, h3⟩ := hup
      subst h2
      by_cases hne : newNodes = [] <;> simp [hne]

/-- Witness for C2: the directory built over bootstrap host `"a"` has a
non-empty snapshot. -/
theorem snapshot_never_empty_witness : stateA.liveNodes ≠ [] :=
  (snapshot_never_empty demoParse cfgPlain ["a"] stateA .transportError).1
    stateA rfl

/-- **C7.** `CheckIfRackAndDatacenterSetCorrectly` returns nil, with no
discovery call and no state change, when neither rack nor datacenter is
configured; otherwise it performs one discovery call scoped via the
configured rack/datacenter query, returns nil exactly when that call
succeeds with a non-empty list, propagates a discovery error (wrapped as a
check error), and reports a configuration error on an empty list. -/
theorem checkRackDatacenter_spec (parse : String → Option URL) (s : ALNState)
    (resp : HTTPResult) (h : s.initialNodes ≠ []) :
    (s.cfg.rack = "" ∧ s.cfg.datacenter = "" →
      CheckIfRackAndDatacenterSetCorrectly parse s resp = some (s, none)) ∧
    (¬(s.cfg.rack = "" ∧ s.cfg.datacenter = "") →
      ∃ s1 r, CheckIfRackAndDatacenterSetCorrectly parse s resp =
          some (s1, r) ∧
        (r = none ↔ ∃ nodes, getNodes parse s.cfg resp = .ok nodes ∧
          nodes ≠ []) ∧
        (∀ e, getNodes parse s.cfg resp = .error e →
          r = some (.discovery e)) ∧
        (getNodes parse s.cfg resp = .ok [] → r = some .emptyList)) := by
  constructor
  · intro hc
    unfold CheckIfRackAndDatacenterSetCorrectly
    rw [if_pos hc]
  · intro hc
    rw [CheckRackDC_eq parse s resp h hc]
    refine ⟨_, _, rfl, ?_, ?_, ?_⟩
    · rcases hg : getNodes parse s.cfg resp with e | nodes <;> simp [hg]
    · intro e he
      rw [he]
    · intro h0
      rw [h0]
      simp

/-- Witness for C7 at a rack-configured directory with a successful
non-empty discovery response. -/
theorem checkRackDatacenter_spec_witness :
    ∃ s1 r, CheckIfRackAndDatacenterSetCorrectly demoParse stateR
        (.response 200 (.bytes (some ["n1"]))) = some (s1, r) ∧
      (r = none ↔ ∃ nodes, getNodes demoParse stateR.cfg
          (.response 200 (.bytes (some ["n1"]))) = .ok nodes ∧
          nodes ≠ []) ∧
      (∀ e, getNodes demoParse stateR.cfg
          (.response 200 (.bytes (some ["n1"]))) = .error e →
        r = some (.discovery e)) ∧
      (getNodes demoParse stateR.cfg
          (.response 200 (.bytes (some ["n1"]))) = .ok [] →
        r = some .emptyList) :=
  (checkRackDatacenter_spec demoParse stateR
      (.response 200 (.bytes (some ["n1"]))) (by decide)).2 (by decide)

/-- **C6 counterexample.** On a fresh two-node directory the feature probe
computes its two endpoints from two *successive* round-robin selections:
the unscoped endpoint targets host `b:8080` while the fake-rack endpoint
targets host `a:8080` — not the same target node, contrary to the claim. -/
theorem featureProbe_targets_differ :
    (featureProbeURIs stateAB).map
        (fun r => (r.1.1.host, r.1.2.host)) = some ("b:8080", "a:8080") ∧
    ("b:8080" : String) ≠ "a:8080" :=
  ⟨rfl, by decide⟩

/-- **C6 (amended).** The feature probe builds its two endpoints from two
successive round-robin selections (the unscoped endpoint from the first,
the fake-rack endpoint from the second — the same node only when the
selection list has length one); it returns an error exactly when either
discovery call fails or the unscoped call returns an empty list, and
otherwise reports support if and only if the two result-list lengths
differ. -/
theorem featureProbe_spec (parse : String → Option URL) (s : ALNState)
    (fakeResp baseResp : HTTPResult) (h : s.initialNodes ≠ []) :
    ∃ u1 s1 u2 s2, nextNode s = some (u1, s1) ∧ nextNode s1 = some (u2, s2) ∧
      featureProbeURIs s =
        some (({ u1 with path := "/localnodes" },
               { u2 with path := "/localnodes", rawQuery := "rack=fakeRack" }),
              s2) ∧
      ∀ sf r, CheckIfRackDatacenterFeatureIsSupported parse s fakeResp
          baseResp = some (sf, r) →
        sf = s2 ∧
        ((∃ b, r = .ok b) ↔
          (∃ f, getNodes parse s.cfg fakeResp = .ok f) ∧
          ∃ bs, getNodes parse s.cfg baseResp = .ok bs ∧ bs ≠ []) ∧
        (∀ f bs, getNodes parse s.cfg fakeResp = .ok f →
          getNodes parse s.cfg baseResp = .ok bs → bs ≠ [] →
          r = .ok (f.length != bs.length)) := by
  obtain ⟨u1, s1, hstep1⟩ : ∃ u1 s1, nextNode s = some (u1, s1) := by
    obtain ⟨hlt1, hstep1⟩ := nextNode_of_ne_nil s (selection_list_ne_nil s h)
    exact ⟨_, _, hstep1⟩
  have hs1 := nextNode_state _ _ _ hstep1
  have hs1init : s1.initialNodes = s.initialNodes := by rw [hs1]
  obtain ⟨u2, s2, hstep2⟩ : ∃ u2 s2, nextNode s1 = some (u2, s2) := by
    obtain ⟨hlt2, hstep2⟩ := nextNode_of_ne_nil s1
      (selection_list_ne_nil s1 (by rw [hs1init]; exact h))
    exact ⟨_, _, hstep2⟩
  have hs2 := nextNode_state _ _ _ hstep2
  have hcfg2 : s2.cfg = s.cfg := by rw [hs2, hs1]
  have hprobe : featureProbeURIs s =
      some (({ u1 with path := "/localnodes" },
             { u2 with path := "/localnodes", rawQuery := "rack=fakeRack" }),
            s2) := by
    unfold featureProbeURIs nextAsURLWithPath
    rw [hstep1]
    simp only []
    rw [hstep2]
    simp
  refine ⟨u1, s1, u2, s2, hstep1, hstep2, hprobe, ?_⟩
  intro sf r hcheck
  unfold CheckIfRackDatacenterFeatureIsSupported at hcheck
  rw [hprobe] at hcheck
  simp only [] at hcheck
  rw [hcfg2] at hcheck
  rcases hgf : getNodes parse s.cfg fakeResp with e | f <;>
    rw [hgf] at hcheck
  · simp only [Option.some.injEq, Prod.mk.injEq] at hcheck
    obtain ⟨hsf, hr⟩ := hcheck
    subst hsf hr
    refine ⟨rfl, ?_, ?_⟩
    · simp
    · intro f bs hf
      injection hf
  · rcases hgb : getNodes parse s.cfg baseResp with e | bs <;>
      rw [hgb] at hcheck
    · simp only [Option.some.injEq, Prod.mk.injEq] at hcheck
      obtain ⟨hsf, hr⟩ := hcheck
      subst hsf hr
      refine ⟨rfl, ?_, ?_⟩
      · simp
      · intro f' bs' hf' hb'
        injection hb'
    · simp only [] at hcheck
      by_cases hbe : bs = []
      · rw [if_pos (List.isEmpty_eq_true.mpr hbe)] at hcheck
        simp only [Option.some.injEq, Prod.mk.injEq] at hcheck
        obtain ⟨hsf, hr⟩ := hcheck
        subst hsf hr
        refine ⟨rfl, ?_, ?_⟩
        · simp [hbe]
        · intro f' bs' hf' hb' hbne
          injection hb' with hb''
          exact absurd (hbe ▸ hb''.symm) hbne
      · rw [if_neg (by simpa using hbe)] at hcheck
        simp only [Option.some.injEq, Prod.mk.injEq] at hcheck
        obtain ⟨hsf, hr⟩ := hcheck
        subst hsf hr
        refine ⟨rfl, ?_, ?_⟩
        · simp [hbe]
        · intro f' bs' hf' hb' hbne
          injection hf' with hf''
          injection hb' with hb''
          rw [hf'', hb'']

/-- Witness for the amended C6 at a concrete two-node directory: the
fake-rack call returns an empty list, the unscoped call one host. -/
theorem featureProbe_spec_witness :
    ∃ u1 s1 u2 s2, nextNode stateAB = some (u1, s1) ∧
      nextNode s1 = some (u2, s2) ∧
      featureProbeURIs stateAB =
        some (({ u1 with path := "/localnodes" },
               { u2 with path := "/localnodes", rawQuery := "rack=fakeRack" }),
              s2) ∧
      ∀ sf r, CheckIfRackDatacenterFeatureIsSupported demoParse stateAB
          (.response 200 (.bytes (some [])))
          (.response 200 (.bytes (some ["x"]))) = some (sf, r) →
        sf = s2 ∧
        ((∃ b, r = .ok b) ↔
          (∃ f, getNodes demoParse stateAB.cfg
              (.response 200 (.bytes (some []))) = .ok f) ∧
          ∃ bs, getNodes demoParse stateAB.cfg
              (.response 200 (.bytes (some ["x"]))) = .ok bs ∧ bs ≠ []) ∧
        (∀ f bs, getNodes demoParse stateAB.cfg
            (.response 200 (.bytes (some []))) = .ok f →
          getNodes demoParse stateAB.cfg
            (.response 200 (.bytes (some ["x"]))) = .ok bs → bs ≠ [] →
          r = .ok (f.length != bs.length)) :=
  featureProbe_spec demoParse stateAB (.response 200 (.bytes (some [])))
    (.response 200 (.bytes (some ["x"]))) (by decide)

/-- **C8.** Construction fails exactly on an empty bootstrap list or on a
bootstrap host whose assembled URL fails to parse; on success the parsed
bootstrap list is published as both the bootstrap list and the first
snapshot, and every bootstrap entry is returned by one of the first
`length` `nextNode` calls — immediately selectable before any discovery
completes.  (`hlen` reflects that Go slice lengths are bounded by the
maximum `int`, below `2^63`.) -/
theorem newALN_spec (parse : String → Option URL) (cfg : ALNConfig)
    (hosts : List String) (hlen : hosts.length < 2 ^ 63) :
    ((∃ e, NewAlternatorLiveNodes parse hosts cfg = .error e) ↔
      hosts = [] ∨ ∃ host ∈ hosts,
        parse (assembleURL cfg.scheme host cfg.port) = none) ∧
    (∀ s0, NewAlternatorLiveNodes parse hosts cfg = .ok s0 →
      parseInitialNodes parse cfg hosts = some s0.initialNodes ∧
      s0.liveNodes = s0.initialNodes ∧
      ∀ u ∈ s0.initialNodes,
        ∃ outs sEnd, nextNodes s0.initialNodes.length s0 = some (outs, sEnd) ∧
          u ∈ outs) := by
  constructor
  · by_cases hemp : hosts.isEmpty
    · constructor
      · intro _
        exact Or.inl (List.isEmpty_eq_true.mp hemp)
      · intro _
        exact ⟨.emptyNodes, by unfold NewAlternatorLiveNodes; rw [if_pos hemp]⟩
    · rcases hp : parseInitialNodes parse cfg hosts with _ | nodes
      · constructor
        · intro _
          exact Or.inr ((parseInitialNodes_eq_none_iff parse cfg hosts).mp hp)
        · intro _
          refine ⟨.invalidNodeURI, ?_⟩
          unfold NewAlternatorLiveNodes
          rw [if_neg hemp, hp]
      · constructor
        · rintro ⟨e, he⟩
          unfold NewAlternatorLiveNodes at he
          rw [if_neg hemp, hp] at he
          injection he
        · rintro (hnil | ⟨host, hmem, hpar⟩)
          · exact absurd (List.isEmpty_eq_true.mpr hnil) hemp
          · have hcontra : parseInitialNodes parse cfg hosts = none :=
              (parseInitialNodes_eq_none_iff parse cfg hosts).mpr
                ⟨host, hmem, hpar⟩
            rw [hp] at hcontra
            injection hcontra
  · intro s0 h0
    unfold NewAlternatorLiveNodes at h0
    by_cases hemp : hosts.isEmpty
    · rw [if_pos hemp] at h0
      injection h0
    · rw [if_neg hemp] at h0
      rcases hp : parseInitialNodes parse cfg hosts with _ | nodes <;>
        rw [hp] at h0
      · injection h0
      · injection h0 with h0'
        have hinit : s0.initialNodes = nodes := by rw [← h0']
        have hlive : s0.liveNodes = nodes := by rw [← h0']
        have hidx : s0.nextLiveNodeIdx = 0 := by rw [← h0']
        refine ⟨?_, ?_, ?_⟩
        · rw [hinit]
        · rw [hlive, hinit]
        · intro u hu
          rw [hinit] at hu
          rw [hinit]
          have hlenp := parseInitialNodes_length parse cfg hosts nodes hp
          have hne : nodes ≠ [] := by
            intro hc
            rw [hc] at hlenp
            exact (show hosts ≠ [] by simpa using hemp)
              (List.length_eq_zero.mp hlenp.symm)
          have h64 : (2 : Nat) ^ 63 < 2 ^ 64 := by norm_num
          have hL : 0 < nodes.length := List.length_pos.mpr hne
          have hcf := nextNodes_closed_form nodes hne nodes.length s0 hlive
            (by rw [hidx]; unfold uint64Card; omega)
          rw [hidx, Nat.zero_add] at hcf
          refine ⟨_, _, hcf, ?_⟩
          obtain ⟨⟨j, hj⟩, hget⟩ := List.mem_iff_get.mp hu
          refine List.mem_map.mpr ⟨if j = 0 then nodes.length else j, ?_, ?_⟩
          · refine List.mem_range'_1.mpr ⟨?_, ?_⟩
            · by_cases hj0 : j = 0
              · subst hj0
                rw [if_pos rfl]
                omega
              · rw [if_neg hj0]
                omega
            · by_cases hj0 : j = 0
              · subst hj0
                rw [if_pos rfl]
                omega
              · rw [if_neg hj0]
                omega
          · have hx : (if j = 0 then nodes.length else j) % nodes.length = j := by
              by_cases hj0 : j = 0 <;>
                simp [hj0, Nat.mod_self, Nat.mod_eq_of_lt hj]
            exact (congrArg nodes.get (Fin.ext hx)).trans hget

/-- Witness for C8 at the single bootstrap host `"a"`. -/
theorem newALN_spec_witness :
    ((∃ e, NewAlternatorLiveNodes demoParse ["a"] cfgPlain = .error e) ↔
      ["a"] = ([] : List String) ∨ ∃ host ∈ ["a"],
        demoParse (assembleURL cfgPlain.scheme host cfgPlain.port) = none) ∧
    (∀ s0, NewAlternatorLiveNodes demoParse ["a"] cfgPlain = .ok s0 →
      parseInitialNodes demoParse cfgPlain ["a"] = some s0.initialNodes ∧
      s0.liveNodes = s0.initialNodes ∧
      ∀ u ∈ s0.initialNodes,
        ∃ outs sEnd, nextNodes s0.initialNodes.length s0 = some (outs, sEnd) ∧
          u ∈ outs) :=
  newALN_spec demoParse cfgPlain ["a"] (by norm_num)

/-- **C3 counterexample.** With the cursor sitting just below the `uint64`
wraparound, one rotation of `N = 1·M = 3` sequential calls over the fixed
duplicate-free 3-address snapshot of `stateWrap` returns the address
`c:8080` zero times instead of exactly once: the shared cursor is a
wrapping `uint64`, not an unboundedly increasing counter, and
`2^64 % 3 ≠ 0` skews the rotation across the wrap. -/
theorem roundRobin_wrap_cex :
    stateWrap.liveNodes.length = 3 ∧ stateWrap.liveNodes.Nodup ∧
    urlOf "c:8080" ∈ stateWrap.liveNodes ∧
    (nextNodes 3 stateWrap).map
      (fun r => r.1.countP (fun u => decide (u = urlOf "c:8080"))) =
      some 0 :=
  ⟨rfl, by decide, by decide, rfl⟩

/-- **C3 (amended).** Over a fixed non-empty snapshot, any `k·M` consecutive
sequential `nextNode` calls return only members of the snapshot; and
provided the snapshot's addresses are pairwise distinct and the `k·M`
cursor increments do not cross the `uint64` wraparound, each address is
returned exactly `k` times (selection is the shared cursor modulo `M`, but
the cursor wraps at `2^64` rather than increasing monotonically forever). -/
theorem roundRobin_fairness (s : ALNState) (k : Nat)
    (hne : s.liveNodes ≠ [])
    (hwrap : s.nextLiveNodeIdx + k * s.liveNodes.length < uint64Card) :
    ∃ outs sEnd, nextNodes (k * s.liveNodes.length) s = some (outs, sEnd) ∧
      (∀ u ∈ outs, u ∈ s.liveNodes) ∧
      (s.liveNodes.Nodup →
        ∀ u ∈ s.liveNodes, outs.countP (fun v => decide (v = u)) = k) := by
  have hcf := nextNodes_closed_form s.liveNodes hne (k * s.liveNodes.length) s
    rfl hwrap
  refine ⟨_, _, hcf, ?_, ?_⟩
  · intro u hu
    obtain ⟨x, hx, rfl⟩ := List.mem_map.mp hu
    exact List.get_mem _ _ _
  · intro hnd u hu
    obtain ⟨⟨j, hj⟩, hget⟩ := List.mem_iff_get.mp hu
    rw [List.countP_map]
    have hcongr : ∀ x ∈ List.range' (s.nextLiveNodeIdx + 1)
        (k * s.liveNodes.length),
        ((fun v => decide (v = u)) ∘ fun x => s.liveNodes.get
          ⟨x % s.liveNodes.length,
           Nat.mod_lt x (List.length_pos.mpr hne)⟩) x = true ↔
        (x % s.liveNodes.length == j) = true := by
      intro x hx
      simp only [Function.comp_apply, decide_eq_true_eq, beq_iff_eq]
      constructor
      · intro hg
        have hfin := hnd.get_inj_iff.mp (hg.trans hget.symm)
        exact congrArg Fin.val hfin
      · intro hxj
        exact (congrArg s.liveNodes.get (Fin.ext hxj)).trans hget
    rw [List.countP_congr hcongr]
    exact countP_mod_range'_mul s.liveNodes.length j hj
      (s.nextLiveNodeIdx + 1) k

/-- Witness for the amended C3: two full rotations over the two-node
directory return each address exactly twice. -/
theorem roundRobin_fairness_witness :
    ∃ outs sEnd, nextNodes (2 * stateAB.liveNodes.length) stateAB =
        some (outs, sEnd) ∧
      (∀ u ∈ outs, u ∈ stateAB.liveNodes) ∧
      (stateAB.liveNodes.Nodup →
        ∀ u ∈ stateAB.liveNodes,
          outs.countP (fun v => decide (v = u)) = 2) :=
  roundRobin_fairness stateAB 2 (by decide) (by decide)

end Shared
